import Mathlib

/-!
Verification of the indexing-and-search subsystem of `src/streamlit_app.py`:
`extract_text_from_pdf` (lines 199-211), `build_search_corpus` (213-244),
`validate_search_term` (139-144) and `search_corpus` (246-275).

The embedding models Python dict keys with a small dynamic-value type
(`PyVal`), paths as component lists, the pypdf surface as the list of
per-page extraction outcomes, and the JSON save/load cycle as the key
transformation `json.dump`/`json.load` actually performs (integer dict keys
become decimal strings).  Thread-pool completion order is modelled by the
order of the input list; quantifying over all lists covers all completion
orders, since tasks are independent and the aggregation loop is driven by
`as_completed` one result at a time.
-/

deriving instance DecidableEq for Except

namespace DojScraper

/-- A Python runtime value appearing as a dict key.  In Python `3` and
`"3"` are distinct values (`3 != "3"`), mirrored by distinct constructors. -/
inductive PyVal where
  | int : Int → PyVal
  | str : String → PyVal
  deriving DecidableEq, Repr

/-- A filesystem path, as its list of components (`pathlib.Path` parts). -/
abbrev FsPath := List String

/-- Line 22: `DOWNLOAD_DIR = Path(os.getenv("DOWNLOAD_DIR", "downloads"))`,
modelled at its default value. -/
def DOWNLOAD_DIR : FsPath := ["downloads"]

/-- `Path.relative_to`: strips `root` from the front of `p`; raises
`ValueError` when `p` is not under `root`. -/
def relative_to (p root : FsPath) : Except String FsPath :=
  if root.isPrefixOf p then .ok (p.drop root.length) else .error "ValueError"

/-- `str(path)`: join the components (POSIX rendering). -/
def pathStr (p : FsPath) : String := String.intercalate "/" p

/-- The pypdf surface used by `extract_text_from_pdf`: `open_result` is
`.error e` when `PdfReader(file_path)` raises, otherwise the outcomes of
`page.extract_text()` for the pages in document order, `.error e` standing
for a page whose extraction raises. -/
structure PdfInput where
  open_result : Except String (List (Except String String))
  deriving DecidableEq, Repr

instance : Inhabited PdfInput := ⟨⟨.error ""⟩⟩

/-- The dict literal returned by `extract_text_from_pdf` (line 211): `file`
is `str(file_path.relative_to(DOWNLOAD_DIR))`, `content` the page dict with
its keys in insertion order. -/
structure ExtractResult where
  file : String
  content : List (PyVal × String)
  deriving DecidableEq, Repr

/-- The `for i, page in enumerate(reader.pages)` loop of
`extract_text_from_pdf` (lines 205-208), entered with loop counter `i`: a
raising page jumps to the `except` handler, keeping the entries accumulated
so far; a page whose text is falsy (the empty string) is skipped
(`if text:`); otherwise `page_data[i + 1] = text` stores the text under the
integer key `i + 1`. -/
def extractPagesFrom (i : Nat) : List (Except String String) → List (PyVal × String)
  | [] => []
  | .error _ :: _ => []
  | .ok t :: rest =>
      (if t = "" then [] else [(PyVal.int ((i + 1 : ℕ) : ℤ), t)]) ++ extractPagesFrom (i + 1) rest

/-- The `page_data` dict as it stands when control leaves the `try` block of
`extract_text_from_pdf`: empty when `PdfReader` itself raises (lines
201-210). -/
def pageData (pdf : PdfInput) : List (PyVal × String) :=
  match pdf.open_result with
  | .error _ => []
  | .ok outs => extractPagesFrom 0 outs

/-- `extract_text_from_pdf` (lines 199-211).  The `try` block covers
`PdfReader` and the page loop; the `return` statement computes
`file_path.relative_to(DOWNLOAD_DIR)` outside the `try`, so a `ValueError`
raised there propagates to the caller. -/
def extract_text_from_pdf (file_path : FsPath) (pdf : PdfInput) :
    Except String ExtractResult :=
  match relative_to file_path DOWNLOAD_DIR with
  | .ok rel => .ok { file := pathStr rel, content := pageData pdf }
  | .error e => .error e

/-- The corpus dict: relative file path → page dict, in insertion order. -/
abbrev Corpus := List (String × List (PyVal × String))

/-- Python dict assignment `d[k] = v`: updates in place when `k` is already
a key, otherwise appends, preserving insertion order. -/
def dictInsert (d : Corpus) (k : String) (v : List (PyVal × String)) : Corpus :=
  if k ∈ d.map Prod.fst then d.map (fun kv => if kv.1 = k then (k, v) else kv)
  else d ++ [(k, v)]

/-- Outcome of one `build_search_corpus` run: the sequence of
`status_text.text` messages, the corpus handed to `json.dump` (`none` when
the zero-file early return skips the write), and the sequence of
`progress_bar.progress` values. -/
structure BuildOutput where
  status : List String
  written : Option Corpus
  progress : List ℚ
  deriving DecidableEq, Repr

/-- The `as_completed` aggregation loop of `build_search_corpus` (lines
226-234), completion order given by the list order.  `future.result()`
re-raises an exception that escaped `extract_text_from_pdf`, aborting the
build; otherwise the result is added to `corpus` when its `content` dict is
truthy (non-empty), `completed` is incremented and
`completed / total_files` is reported. -/
def buildLoop (total : Nat) :
    List (FsPath × PdfInput) → Nat → Corpus → List ℚ → Except String (Corpus × List ℚ)
  | [], _, corpus, progress => .ok (corpus, progress)
  | (f, pdf) :: rest, completed, corpus, progress =>
    match extract_text_from_pdf f pdf with
    | .error e => .error e
    | .ok result =>
      buildLoop total rest (completed + 1)
        (if result.content.isEmpty then corpus else dictInsert corpus result.file result.content)
        (progress ++ [((completed + 1 : ℕ) : ℚ) / (total : ℚ)])

/-- `build_search_corpus` (lines 213-244) over the discovered files paired
with their parsed contents, listed in completion order.  `written = some c`
means the write `json.dump(c, f)` is attempted; the zero-file branch
returns before any write. -/
def build_search_corpus (files : List (FsPath × PdfInput)) : Except String BuildOutput :=
  if files.length = 0 then
    .ok { status := ["No PDF files found to index."], written := none, progress := [] }
  else
    match buildLoop files.length files 0 [] [] with
    | .error e => .error e
    | .ok (corpus, progress) =>
      .ok { status := ["Parsing PDFs for text...", "Index Built Successfully."],
            written := some corpus, progress := progress }

/-- Effect of a build outcome on the persisted index file, assuming the
`json.dump` write itself succeeds when attempted: a skipped write leaves
the prior file contents in place. -/
def persistAfterBuild (prior : Option Corpus) (out : BuildOutput) : Option Corpus :=
  match out.written with
  | some c => some c
  | none => prior

/-- JSON object keys are strings: `json.dump` renders an `int` dict key as
its decimal string, and `json.load` hands it back as a `str`. -/
def jsonKey : PyVal → String
  | .int n => toString n
  | .str s => s

/-- The save/load cycle `json.dump` (line 238) then `json.load` (line 257)
on a corpus: file-name keys are already strings; every page-number key
comes back as a string. -/
def jsonSaveLoad (corpus : Corpus) : Corpus :=
  corpus.map (fun fp => (fp.1, fp.2.map (fun kv => (PyVal.str (jsonKey kv.1), kv.2))))

/-- Python `str.lower`, as the per-character lowercase map. -/
def pyLower (s : String) : String := ⟨s.data.map Char.toLower⟩

/-- Python `str.strip()`: drop leading and trailing whitespace. -/
def pyStrip (s : String) : String :=
  ⟨((s.data.dropWhile Char.isWhitespace).reverse.dropWhile Char.isWhitespace).reverse⟩

/-- `validate_search_term` (lines 139-144):
`if not term or len(term.strip()) == 0: return False`. -/
def validate_search_term (term : String) : Bool :=
  if term = "" || pyStrip term = "" then false else true

/-- The Python substring test `needle in hay`, on lists of characters. -/
def containsSub (hay needle : List Char) : Bool :=
  match hay with
  | [] => needle.isEmpty
  | c :: t => needle.isPrefixOf (c :: t) || containsSub t needle

/-- Line 269: `if term in text.lower()`, with `t` the already-lowercased
term (line 263 rebinds `term = term.lower()`). -/
def pageMatches (t : String) (text : String) : Bool :=
  containsSub (pyLower text).data t.data

/-- One search result row `{"file": filename, "pages": matched_pages}`
(line 272). -/
structure SearchMatch where
  file : String
  pages : List PyVal
  deriving DecidableEq, Repr

/-- The per-file loop of `search_corpus` (lines 266-272), `t` the
lowercased term: `matched_pages` collects the keys of the pages whose text
contains `t`, and a file contributes a row only when `matched_pages` is
truthy (non-empty). -/
def searchLoop (t : String) : Corpus → List SearchMatch
  | [] => []
  | (filename, pages) :: rest =>
    (if ((pages.filter (fun kv => pageMatches t kv.2)).map Prod.fst).isEmpty then []
     else [{ file := filename,
             pages := (pages.filter (fun kv => pageMatches t kv.2)).map Prod.fst }])
      ++ searchLoop t rest

/-- State of `INDEX_FILE` as `search_corpus` observes it: missing
(`INDEX_FILE.exists()` is false, line 251), present but failing
`json.load` (line 257 raises), or loading as `corpus`. -/
inductive IndexState where
  | absent : IndexState
  | corrupt : String → IndexState
  | loaded : Corpus → IndexState
  deriving DecidableEq, Repr

/-- Result of `search_corpus` together with whether the index file was
opened and read. -/
structure SearchOutcome where
  results : List SearchMatch
  readIndex : Bool
  deriving DecidableEq, Repr

/-- `search_corpus` (lines 246-275).  Every exception source sits behind a
guard or inside `try`, so the function always returns: an invalid term and
a missing index file return `[]` before any read, a `json.load` failure is
caught and returns `[]` after the read. -/
def search_corpus (term : String) (index : IndexState) : SearchOutcome :=
  if !validate_search_term term then { results := [], readIndex := false }
  else
    match index with
    | .absent => { results := [], readIndex := false }
    | .corrupt _ => { results := [], readIndex := true }
    | .loaded corpus => { results := searchLoop (pyLower term) corpus, readIndex := true }

/-- Relative-path string `str(f.relative_to(DOWNLOAD_DIR))` of a path under
the download root. -/
def relFile (f : FsPath) : String := pathStr (f.drop DOWNLOAD_DIR.length)

/-- Fixture: a one-page PDF extracting the text `"hello"`. -/
def pdfHello : PdfInput := ⟨.ok [.ok "hello"]⟩

/-- Fixture: a PDF whose first page extracts `"hello"` and whose second
page raises during extraction. -/
def pdfMidError : PdfInput := ⟨.ok [.ok "hello", .error "boom"]⟩

/-- Fixture: a one-page PDF extracting only a single space. -/
def pdfBlank : PdfInput := ⟨.ok [.ok " "]⟩

/-- Fixture: a one-file build input under the download root. -/
def filesHello : List (FsPath × PdfInput) := [(["downloads", "a.pdf"], pdfHello)]

/-- Fixture: a two-file build input, the second file failing to open. -/
def filesTwo : List (FsPath × PdfInput) :=
  [(["downloads", "a.pdf"], pdfHello), (["downloads", "b.pdf"], ⟨.error "bad"⟩)]

/-- Fixture: a loaded corpus with a single page of text. -/
def corpusCourt : Corpus := [("a.pdf", [(PyVal.str "1", "The Court record")])]

/-- Fixture: the corpus written by the one-file build `filesHello`. -/
def corpusHello : Corpus := [("a.pdf", [(PyVal.int 1, "hello")])]

/-- Fixture: the build outcome of the one-file build `filesHello` (its one
progress report is `1 / 1`, written as the loop computes it). -/
def outHello : BuildOutput :=
  { status := ["Parsing PDFs for text...", "Index Built Successfully."],
    written := some corpusHello,
    progress := [((0 + 1 : ℕ) : ℚ) / (filesHello.length : ℚ)] }

/-- Pure aggregation of a build over under-root files: one corpus entry
per file whose extracted content dict is non-empty, in completion order
(the dict insertion order of lines 229-232). -/
def corpusOf : List (FsPath × PdfInput) → Corpus
  | [] => []
  | (f, pdf) :: rest =>
    (if (pageData pdf).isEmpty then [] else [(relFile f, pageData pdf)]) ++ corpusOf rest

/-- A list of page keys that is the decimal-string rendering of a strictly
ascending list of natural numbers — the shape of the page keys of every
corpus written by `build_search_corpus`, after the JSON save/load cycle. -/
def AscendingKeys (ks : List PyVal) : Prop :=
  ∃ nums : List ℕ, nums.Pairwise (· < ·) ∧
    ks = nums.map (fun n => PyVal.str (toString n))

/-- For a path under the download root, `relative_to` succeeds, so
`extract_text_from_pdf` returns normally with the accumulated page dict. -/
theorem extract_ok_of_under_root (f : FsPath) (pdf : PdfInput)
    (h : DOWNLOAD_DIR.isPrefixOf f = true) :
    extract_text_from_pdf f pdf = .ok { file := relFile f, content := pageData pdf } := by
  simp [extract_text_from_pdf, relative_to, h, relFile]

/-- For a path not under the download root, the `relative_to` call outside
the `try` block raises `ValueError`, which propagates. -/
theorem extract_error_of_not_under_root (f : FsPath) (pdf : PdfInput)
    (h : DOWNLOAD_DIR.isPrefixOf f = false) :
    extract_text_from_pdf f pdf = .error "ValueError" := by
  simp [extract_text_from_pdf, relative_to, h]

/-- A normal return of `extract_text_from_pdf` carries exactly the
`page_data` dict of the `try` block. -/
theorem extract_ok_content (f : FsPath) (pdf : PdfInput) (r : ExtractResult)
    (h : extract_text_from_pdf f pdf = .ok r) : r.content = pageData pdf := by
  unfold extract_text_from_pdf at h
  cases hrel : relative_to f DOWNLOAD_DIR with
  | ok rel => rw [hrel] at h; simp only [Except.ok.injEq] at h; rw [← h]
  | error e => rw [hrel] at h; cases h

/-- C6: a build that discovers zero `.pdf` files reports the benign status
"No PDF files found to index." and performs no write at all, so an
existing persisted index file is left unchanged rather than overwritten
with an empty corpus. -/
theorem C6_zero_files_no_write (prior : Option Corpus) :
    ∃ out, build_search_corpus [] = .ok out ∧
      out.status = ["No PDF files found to index."] ∧
      out.written = none ∧
      persistAfterBuild prior out = prior :=
  ⟨_, rfl, rfl, rfl, rfl⟩

/-- C8: an empty or all-whitespace search term fails
`validate_search_term`, so `search_corpus` returns an empty result list
immediately, without reading the index file, whatever its state. -/
theorem C8_blank_term_no_read (term : String) (index : IndexState)
    (h : pyStrip term = "") :
    search_corpus term index = { results := [], readIndex := false } := by
  simp [search_corpus, validate_search_term, h]

/-- C8 witness: the all-whitespace term `"  "` and the empty term yield no
results and no index read even with a loaded index present. -/
theorem C8_blank_term_no_read_witness :
    pyStrip "  " = "" ∧
    search_corpus "  " (.loaded corpusCourt) = { results := [], readIndex := false } ∧
    search_corpus "" (.loaded corpusCourt) = { results := [], readIndex := false } :=
  ⟨by decide, C8_blank_term_no_read "  " (.loaded corpusCourt) (by decide),
    C8_blank_term_no_read "" (.loaded corpusCourt) (by decide)⟩

/-- C9: with a valid term, a missing index file yields an empty result
list before any read, and an index file that fails `json.load` yields an
empty result list after the failed read; in the embedding `search_corpus`
is a total function, mirroring that every exception source at the search
boundary is guarded or caught. -/
theorem C9_missing_or_corrupt_index (term : String)
    (hv : validate_search_term term = true) :
    search_corpus term .absent = { results := [], readIndex := false } ∧
    ∀ msg, search_corpus term (.corrupt msg) = { results := [], readIndex := true } := by
  constructor
  · simp [search_corpus, hv]
  · intro msg; simp [search_corpus, hv]

/-- C9 witness: instantiated at the valid term `"court"`. -/
theorem C9_missing_or_corrupt_index_witness :
    search_corpus "court" .absent = { results := [], readIndex := false } ∧
    ∀ msg, search_corpus "court" (.corrupt msg) = { results := [], readIndex := true } :=
  C9_missing_or_corrupt_index "court" (by decide)

/-- A page that raises jumps to the `except` handler: the loop keeps
exactly the entries accumulated from the pages before the failing one. -/
theorem extractPagesFrom_until_error (err : String) (rest : List (Except String String)) :
    ∀ (pre : List String) (i : Nat),
    extractPagesFrom i (pre.map Except.ok ++ Except.error err :: rest) =
      extractPagesFrom i (pre.map Except.ok) := by
  intro pre
  induction pre with
  | nil => intro i; simp [extractPagesFrom]
  | cons t ts ih => intro i; simp [extractPagesFrom, ih]

/-- C3 counterexample: on a PDF whose second page raises during extraction,
`extract_text_from_pdf` catches the error but returns a NON-empty page map
(page 1 is kept), refuting the claim that any caught extraction error
results in a Document with an empty page map. -/
theorem C3_counterexample_partial_map :
    extract_text_from_pdf ["downloads", "p.pdf"] pdfMidError =
      .ok { file := "p.pdf", content := [(PyVal.int 1, "hello")] } ∧
    ({ file := "p.pdf", content := [(PyVal.int 1, "hello")] } : ExtractResult).content ≠ [] := by
  decide

/-- C3 amended: for any path under the download root, every parse or
extraction error inside `extract_text_from_pdf` is caught internally and
the function returns normally; when `PdfReader` itself fails the page map
is empty, while an error during per-page extraction leaves the pages
already extracted in the map (which is therefore possibly non-empty). -/
theorem C3_errors_caught (f : FsPath) (pdf : PdfInput)
    (hroot : DOWNLOAD_DIR.isPrefixOf f = true) :
    ∃ r, extract_text_from_pdf f pdf = .ok r ∧
      (∀ e, pdf.open_result = .error e → r.content = []) ∧
      (∀ (pre : List String) (err : String) (rest : List (Except String String)),
        pdf.open_result = .ok (pre.map Except.ok ++ Except.error err :: rest) →
          r.content = extractPagesFrom 0 (pre.map Except.ok)) := by
  refine ⟨_, extract_ok_of_under_root f pdf hroot, ?_, ?_⟩
  · intro e he; simp [pageData, he]
  · intro pre err rest he; simp [pageData, he, extractPagesFrom_until_error]

/-- C3 witness: the amended statement instantiated at a PDF that opens
normally and raises on its second page. -/
theorem C3_errors_caught_witness :
    ∃ r, extract_text_from_pdf ["downloads", "p.pdf"] pdfMidError = .ok r ∧
      (∀ e, pdfMidError.open_result = .error e → r.content = []) ∧
      (∀ (pre : List String) (err : String) (rest : List (Except String String)),
        pdfMidError.open_result = .ok (pre.map Except.ok ++ Except.error err :: rest) →
          r.content = extractPagesFrom 0 (pre.map Except.ok)) :=
  C3_errors_caught ["downloads", "p.pdf"] pdfMidError (by decide)

/-- C2 counterexample: a page extracting the whitespace-only text `" "` is
truthy in Python (`if text:`), so it IS stored in the page map, refuting
the claim that pages with whitespace-only text are omitted. -/
theorem C2_counterexample_whitespace_page :
    extract_text_from_pdf ["downloads", "w.pdf"] pdfBlank =
      .ok { file := "w.pdf", content := [(PyVal.int 1, " ")] } ∧
    pyStrip " " = "" := by
  decide

/-- On a PDF none of whose pages raise, the loop keeps exactly the pages
with non-empty text, keyed by their 1-based positions. -/
theorem extractPagesFrom_no_errors (outs : List String) :
    ∀ i, extractPagesFrom i (outs.map Except.ok) =
      ((List.enumFrom i outs).filter (fun p => !(p.2 = ""))).map
        (fun p => (PyVal.int ((p.1 + 1 : ℕ) : ℤ), p.2)) := by
  induction outs with
  | nil => intro i; simp [extractPagesFrom]
  | cons t ts ih =>
    intro i
    by_cases ht : t = "" <;>
      simp [extractPagesFrom, List.enumFrom_cons, List.filter_cons, ht, ih]

/-- The pair of an index and the element there belongs to `enumFrom`. -/
theorem get_mem_enumFrom (outs : List String) :
    ∀ (s i : Nat) (h : i < outs.length), (s + i, outs.get ⟨i, h⟩) ∈ List.enumFrom s outs := by
  induction outs with
  | nil => intro s i h; exact absurd h (Nat.not_lt_zero i)
  | cons t ts ih =>
    intro s i h
    cases i with
    | zero => simp [List.enumFrom_cons]
    | succ j =>
      rw [List.enumFrom_cons]
      refine List.mem_cons.mpr (.inr ?_)
      have hj : j < ts.length := by simpa using Nat.lt_of_succ_lt_succ h
      have := ih (s + 1) j hj
      have harith : s + (j + 1) = s + 1 + j := by omega
      simpa [harith] using this

/-- C2 amended: for an under-root path and a PDF whose pages all extract
without raising, the 1-based index `i + 1` appears in the returned page
map iff the extracted text of page `i` is non-empty — the empty string is
omitted, but whitespace-only text is stored. -/
theorem C2_page_present_iff_nonempty (f : FsPath) (outs : List String)
    (hroot : DOWNLOAD_DIR.isPrefixOf f = true) :
    ∃ r, extract_text_from_pdf f ⟨.ok (outs.map Except.ok)⟩ = .ok r ∧
      r.content = (((List.enumFrom 0 outs).filter (fun p => !(p.2 = ""))).map
        (fun p => (PyVal.int ((p.1 + 1 : ℕ) : ℤ), p.2))) ∧
      ∀ (i : Nat) (h : i < outs.length),
        ((∃ v, (PyVal.int ((i + 1 : ℕ) : ℤ), v) ∈ r.content) ↔ outs.get ⟨i, h⟩ ≠ "") := by
  refine ⟨_, extract_ok_of_under_root f _ hroot, ?_, ?_⟩
  · simp [pageData, extractPagesFrom_no_errors]
  · intro i h
    simp only [pageData, extractPagesFrom_no_errors]
    constructor
    · rintro ⟨v, hv⟩
      rw [List.mem_map] at hv
      obtain ⟨⟨j, w⟩, hp, hpe⟩ := hv
      rw [List.mem_filter] at hp
      obtain ⟨hpm, hpne⟩ := hp
      obtain ⟨-, -, hw⟩ := List.mem_enumFrom hpm
      simp only [Prod.mk.injEq, PyVal.int.injEq, Nat.cast_inj] at hpe
      have hji : j = i := by omega
      subst hji
      simp only [Nat.sub_zero] at hw
      simp only [Bool.not_eq_eq_eq_not, Bool.not_true, decide_eq_false_iff_not] at hpne
      rw [List.get_eq_getElem, ← hw]
      exact hpne
    · intro hne
      refine ⟨outs.get ⟨i, h⟩, ?_⟩
      rw [List.mem_map]
      refine ⟨(i, outs.get ⟨i, h⟩), ?_, rfl⟩
      rw [List.mem_filter]
      refine ⟨by simpa using get_mem_enumFrom outs 0 i h, ?_⟩
      simp only [List.get_eq_getElem] at hne
      simpa using hne

/-- C2 witness: the amended statement instantiated at a two-page PDF whose
second page extracts the empty string: page 1 is present, page 2 absent. -/
theorem C2_page_present_iff_nonempty_witness :
    ∃ r, extract_text_from_pdf ["downloads", "v.pdf"] ⟨.ok (["hello", ""].map Except.ok)⟩ = .ok r ∧
      r.content = (((List.enumFrom 0 ["hello", ""]).filter (fun p => !(p.2 = ""))).map
        (fun p => (PyVal.int ((p.1 + 1 : ℕ) : ℤ), p.2))) ∧
      ∀ (i : Nat) (h : i < (["hello", ""] : List String).length),
        ((∃ v, (PyVal.int ((i + 1 : ℕ) : ℤ), v) ∈ r.content) ↔
          (["hello", ""] : List String).get ⟨i, h⟩ ≠ "") :=
  C2_page_present_iff_nonempty ["downloads", "v.pdf"] ["hello", ""] (by decide)

/-- Splitting off the first of `n + 1` mapped range values. -/
theorem range_map_cons (n : Nat) (g : ℕ → ℚ) :
    g 0 :: (List.range n).map (fun j => g (j + 1)) = (List.range (n + 1)).map g := by
  rw [List.range_succ_eq_map]
  simp [List.map_map, Function.comp_def, Nat.succ_eq_add_one]

/-- Over files that all lie under the download root, the aggregation loop
never re-raises, and reports one `completed / total` value per task, in
completion order. -/
theorem buildLoop_reports (total : Nat) (files : List (FsPath × PdfInput)) :
    ∀ (completed : Nat) (corpus : Corpus) (progress : List ℚ),
    (∀ fp ∈ files, DOWNLOAD_DIR.isPrefixOf fp.1 = true) →
    ∃ c, buildLoop total files completed corpus progress =
      .ok (c, progress ++ (List.range files.length).map
        (fun j => ((completed + j + 1 : ℕ) : ℚ) / (total : ℚ))) := by
  induction files with
  | nil => intro completed corpus progress _; exact ⟨corpus, by simp [buildLoop]⟩
  | cons fp rest ih =>
    intro completed corpus progress hroot
    obtain ⟨f, pdf⟩ := fp
    have hex := extract_ok_of_under_root f pdf (hroot (f, pdf) (List.mem_cons_self _ _))
    obtain ⟨c, hc⟩ := ih (completed + 1)
      (if (pageData pdf).isEmpty then corpus else dictInsert corpus (relFile f) (pageData pdf))
      (progress ++ [((completed + 1 : ℕ) : ℚ) / (total : ℚ)])
      (fun q hq => hroot q (List.mem_cons_of_mem _ hq))
    refine ⟨c, ?_⟩
    simp only [buildLoop, hex]
    rw [hc]
    have hshift : (List.range rest.length).map
        (fun j => ((completed + 1 + j + 1 : ℕ) : ℚ) / (total : ℚ)) =
        (List.range rest.length).map
          (fun j => ((completed + (j + 1) + 1 : ℕ) : ℚ) / (total : ℚ)) :=
      List.map_congr_left (fun a _ => by
        rw [show completed + 1 + a + 1 = completed + (a + 1) + 1 from by omega])
    rw [List.append_assoc, hshift]
    rw [show ((completed + 1 : ℕ) : ℚ) / (total : ℚ) =
      ((completed + 0 + 1 : ℕ) : ℚ) / (total : ℚ) from by rw [Nat.add_zero]]
    rw [List.singleton_append, range_map_cons (rest.length)
      (fun j => ((completed + j + 1 : ℕ) : ℚ) / (total : ℚ)), List.length_cons]

/-- C7: for a build over `N ≥ 1` discovered files — all under the download
root, as `DOWNLOAD_DIR.rglob` guarantees — the reported progress sequence
has one entry per completed task (successful or internally failed
extraction alike), its j-th entry equals `(j + 1) / N`, it is monotonically
non-decreasing, and its final entry is exactly `1`; the input list
enumerates the files in completion order, so quantifying over all lists
covers every completion order. -/
theorem C7_progress_reports (files : List (FsPath × PdfInput))
    (hroot : ∀ fp ∈ files, DOWNLOAD_DIR.isPrefixOf fp.1 = true)
    (hne : files ≠ []) :
    ∃ out, build_search_corpus files = .ok out ∧
      out.progress = (List.range files.length).map
        (fun j => ((j + 1 : ℕ) : ℚ) / (files.length : ℚ)) ∧
      out.progress.length = files.length ∧
      out.progress.Pairwise (· ≤ ·) ∧
      out.progress.getLast? = some 1 := by
  obtain ⟨c, hc⟩ := buildLoop_reports files.length files 0 [] [] hroot
  have hlen : ¬ files.length = 0 := fun h => hne (List.length_eq_zero.mp h)
  have hcanon : (List.range files.length).map
      (fun j => ((0 + j + 1 : ℕ) : ℚ) / (files.length : ℚ)) =
      (List.range files.length).map
        (fun j => ((j + 1 : ℕ) : ℚ) / (files.length : ℚ)) :=
    List.map_congr_left (fun a _ => by rw [Nat.zero_add])
  have hbuild : build_search_corpus files = .ok
      { status := ["Parsing PDFs for text...", "Index Built Successfully."],
        written := some c,
        progress := (List.range files.length).map
          (fun j => ((j + 1 : ℕ) : ℚ) / (files.length : ℚ)) } := by
    unfold build_search_corpus
    rw [if_neg hlen, hc, List.nil_append, hcanon]
  refine ⟨_, hbuild, rfl, ?_, ?_, ?_⟩
  · simp
  · refine List.pairwise_map.mpr (List.Pairwise.imp ?_ (List.pairwise_lt_range files.length))
    intro a b hab
    exact div_le_div_of_nonneg_right (Nat.cast_le.mpr (by omega)) (Nat.cast_nonneg _)
  · obtain ⟨m, hm⟩ := Nat.exists_eq_succ_of_ne_zero hlen
    simp only [hm, List.range_succ, List.map_append, List.map_cons, List.map_nil,
      List.getLast?_concat]
    rw [div_self (by exact_mod_cast Nat.succ_ne_zero m : ((m + 1 : ℕ) : ℚ) ≠ 0)]

/-- C7 witness: the progress property instantiated at a one-file build. -/
theorem C7_progress_reports_witness :
    ∃ out, build_search_corpus filesHello = .ok out ∧
      out.progress = (List.range filesHello.length).map
        (fun j => ((j + 1 : ℕ) : ℚ) / (filesHello.length : ℚ)) ∧
      out.progress.length = filesHello.length ∧
      out.progress.Pairwise (· ≤ ·) ∧
      out.progress.getLast? = some 1 :=
  C7_progress_reports filesHello (by decide) (by decide)

/-- C10: the catch-all `except` of `extract_text_from_pdf` covers
`PdfReader` and per-page extraction, but the `relative_to` computation on
the `return` line lies outside it: for any path not under `DOWNLOAD_DIR`
the function raises `ValueError` whatever the PDF contents, while for any
path under `DOWNLOAD_DIR` — in particular every path of the form
`DOWNLOAD_DIR ++ rel` that `DOWNLOAD_DIR.rglob` produces — it returns
normally, so the error branch is unreachable during a build. -/
theorem C10_relative_to_outside_handler :
    (∀ f pdf, DOWNLOAD_DIR.isPrefixOf f = false →
      extract_text_from_pdf f pdf = .error "ValueError") ∧
    (∀ f pdf, DOWNLOAD_DIR.isPrefixOf f = true →
      extract_text_from_pdf f pdf = .ok { file := relFile f, content := pageData pdf }) ∧
    (∀ rel : FsPath, DOWNLOAD_DIR.isPrefixOf (DOWNLOAD_DIR ++ rel) = true) ∧
    (∀ files : List (FsPath × PdfInput),
      (∀ fp ∈ files, DOWNLOAD_DIR.isPrefixOf fp.1 = true) →
      ∃ out, build_search_corpus files = .ok out) := by
  refine ⟨extract_error_of_not_under_root, extract_ok_of_under_root, ?_, ?_⟩
  · intro rel
    simp [DOWNLOAD_DIR, List.isPrefixOf]
  · intro files hf
    cases hfs : files with
    | nil => exact ⟨_, rfl⟩
    | cons hd tl =>
      subst hfs
      obtain ⟨c, hc⟩ := buildLoop_reports (hd :: tl).length (hd :: tl) 0 [] [] hf
      have hlen : ¬ (hd :: tl).length = 0 := by simp
      refine ⟨{ status := ["Parsing PDFs for text...", "Index Built Successfully."],
                written := some c,
                progress := [] ++ (List.range (hd :: tl).length).map
                  (fun j => ((0 + j + 1 : ℕ) : ℚ) / ((hd :: tl).length : ℚ)) }, ?_⟩
      unfold build_search_corpus
      rw [if_neg hlen, hc]

/-- C10 witness: a path outside the root raises, a path under the root
returns normally, `rglob`-shaped paths are under the root, and a build
over under-root files succeeds. -/
theorem C10_relative_to_outside_handler_witness :
    extract_text_from_pdf ["elsewhere", "a.pdf"] pdfHello = .error "ValueError" ∧
    extract_text_from_pdf ["downloads", "a.pdf"] pdfHello =
      .ok { file := relFile ["downloads", "a.pdf"], content := pageData pdfHello } ∧
    DOWNLOAD_DIR.isPrefixOf (DOWNLOAD_DIR ++ ["a.pdf"]) = true ∧
    ∃ out, build_search_corpus filesHello = .ok out :=
  ⟨C10_relative_to_outside_handler.1 ["elsewhere", "a.pdf"] pdfHello (by decide),
   C10_relative_to_outside_handler.2.1 ["downloads", "a.pdf"] pdfHello (by decide),
   C10_relative_to_outside_handler.2.2.1 ["a.pdf"],
   C10_relative_to_outside_handler.2.2.2 filesHello (by decide)⟩

/-- Assignment to a fresh key appends the pair to the dict. -/
theorem dictInsert_not_mem (d : Corpus) (k : String) (v : List (PyVal × String))
    (h : k ∉ d.map Prod.fst) : dictInsert d k v = d ++ [(k, v)] := by
  simp [dictInsert, h]

/-- Membership in the pure aggregation. -/
theorem corpusOf_mem (files : List (FsPath × PdfInput)) (g : String)
    (pages : List (PyVal × String)) :
    (g, pages) ∈ corpusOf files ↔
      ∃ fp ∈ files, relFile fp.1 = g ∧ pageData fp.2 = pages ∧
        ¬ (pageData fp.2).isEmpty = true := by
  induction files with
  | nil => simp [corpusOf]
  | cons fp rest ih =>
    obtain ⟨f, pdf⟩ := fp
    by_cases hemp : (pageData pdf).isEmpty = true
    · rw [corpusOf, if_pos hemp, List.nil_append, ih]
      constructor
      · rintro ⟨q, hq, h1, h2, h3⟩
        exact ⟨q, List.mem_cons_of_mem _ hq, h1, h2, h3⟩
      · rintro ⟨q, hq, h1, h2, h3⟩
        rcases List.mem_cons.mp hq with rfl | hq2
        · exact absurd hemp h3
        · exact ⟨q, hq2, h1, h2, h3⟩
    · rw [corpusOf, if_neg hemp, List.singleton_append, List.mem_cons, ih]
      constructor
      · rintro (heq | ⟨q, hq, h1, h2, h3⟩)
        · obtain ⟨h1, h2⟩ := Prod.mk.injEq .. ▸ heq
          exact ⟨(f, pdf), List.mem_cons_self _ _, h1.symm, h2.symm, hemp⟩
        · exact ⟨q, List.mem_cons_of_mem _ hq, h1, h2, h3⟩
      · rintro ⟨q, hq, h1, h2, h3⟩
        rcases List.mem_cons.mp hq with rfl | hq2
        · exact .inl (by rw [← h1, ← h2])
        · exact .inr ⟨q, hq2, h1, h2, h3⟩

/-- Size of the pure aggregation: one entry per file with non-empty
extracted content. -/
theorem corpusOf_length (files : List (FsPath × PdfInput)) :
    (corpusOf files).length = (files.filter (fun fp => !(pageData fp.2).isEmpty)).length := by
  induction files with
  | nil => rfl
  | cons fp rest ih =>
    obtain ⟨f, pdf⟩ := fp
    by_cases hemp : (pageData pdf).isEmpty = true <;>
      simp [corpusOf, List.filter_cons, hemp, ih]

/-- Over under-root files with pairwise distinct relative paths avoiding
the accumulated keys, the aggregation loop appends exactly the pure
aggregation. -/
theorem buildLoop_corpus (total : Nat) (files : List (FsPath × PdfInput)) :
    ∀ (completed : Nat) (corpus : Corpus) (progress : List ℚ),
    (∀ fp ∈ files, DOWNLOAD_DIR.isPrefixOf fp.1 = true) →
    (files.map (fun fp => relFile fp.1)).Nodup →
    (∀ fp ∈ files, ¬ (pageData fp.2).isEmpty = true → relFile fp.1 ∉ corpus.map Prod.fst) →
    ∃ pr, buildLoop total files completed corpus progress =
      .ok (corpus ++ corpusOf files, pr) := by
  induction files with
  | nil =>
    intro completed corpus progress _ _ _
    exact ⟨progress, by simp [buildLoop, corpusOf]⟩
  | cons fp rest ih =>
    intro completed corpus progress hroot hnd hdisj
    obtain ⟨f, pdf⟩ := fp
    have hex := extract_ok_of_under_root f pdf (hroot (f, pdf) (List.mem_cons_self _ _))
    have hroot2 : ∀ q ∈ rest, DOWNLOAD_DIR.isPrefixOf q.1 = true :=
      fun q hq => hroot q (List.mem_cons_of_mem _ hq)
    have hnd2 := (List.nodup_cons.mp hnd).2
    have hfresh := (List.nodup_cons.mp hnd).1
    have hfresh2 : relFile f ∉ List.map (fun fp => relFile fp.1) rest := hfresh
    by_cases hemp : (pageData pdf).isEmpty = true
    · obtain ⟨pr, hpr⟩ := ih (completed + 1) corpus
        (progress ++ [((completed + 1 : ℕ) : ℚ) / (total : ℚ)]) hroot2 hnd2
        (fun q hq hqe => hdisj q (List.mem_cons_of_mem _ hq) hqe)
      refine ⟨pr, ?_⟩
      simp only [buildLoop, hex]
      rw [if_pos hemp, hpr]
      simp [corpusOf, hemp]
    · have hdisj2 : ∀ q ∈ rest, ¬ (pageData q.2).isEmpty = true →
          relFile q.1 ∉ (corpus ++ [(relFile f, pageData pdf)]).map Prod.fst := by
        intro q hq hqe
        rw [List.map_append, List.mem_append]
        rintro (hin | hin)
        · exact hdisj q (List.mem_cons_of_mem _ hq) hqe hin
        · simp only [List.map_cons, List.map_nil, List.mem_singleton] at hin
          exact hfresh2 (hin ▸ List.mem_map.mpr ⟨q, hq, rfl⟩)
      obtain ⟨pr, hpr⟩ := ih (completed + 1) (corpus ++ [(relFile f, pageData pdf)])
        (progress ++ [((completed + 1 : ℕ) : ℚ) / (total : ℚ)]) hroot2 hnd2 hdisj2
      refine ⟨pr, ?_⟩
      simp only [buildLoop, hex]
      rw [if_neg hemp, dictInsert_not_mem corpus (relFile f) (pageData pdf)
        (hdisj (f, pdf) (List.mem_cons_self _ _) hemp), hpr]
      simp [corpusOf, hemp, List.append_assoc]

/-- C4: for a build over at least one discovered file — all under the
download root with pairwise distinct relative paths, as `rglob` yields —
a relative path is a key of the written corpus iff that file extracted a
non-empty page map, and the corpus has exactly as many entries as there
are files with at least one non-empty page; files with zero extractable
text (including parse failures) contribute no key. -/
theorem C4_corpus_keys (files : List (FsPath × PdfInput))
    (hroot : ∀ fp ∈ files, DOWNLOAD_DIR.isPrefixOf fp.1 = true)
    (hnd : (files.map (fun fp => relFile fp.1)).Nodup)
    (hne : files ≠ []) :
    ∃ out corpus, build_search_corpus files = .ok out ∧ out.written = some corpus ∧
      (∀ g, (∃ pages, (g, pages) ∈ corpus) ↔
        ∃ fp ∈ files, relFile fp.1 = g ∧ ¬ (pageData fp.2).isEmpty = true) ∧
      corpus.length = (files.filter (fun fp => !(pageData fp.2).isEmpty)).length := by
  obtain ⟨pr, hpr⟩ := buildLoop_corpus files.length files 0 [] [] hroot hnd (by simp)
  have hlen : ¬ files.length = 0 := fun h => hne (List.length_eq_zero.mp h)
  refine ⟨{ status := ["Parsing PDFs for text...", "Index Built Successfully."],
            written := some (corpusOf files), progress := pr },
          corpusOf files, ?_, rfl, ?_, corpusOf_length files⟩
  · unfold build_search_corpus
    rw [if_neg hlen, hpr]
    rfl
  · intro g
    constructor
    · rintro ⟨pages, hp⟩
      obtain ⟨fp, hfp, hrel, -, hne2⟩ := (corpusOf_mem files g pages).mp hp
      exact ⟨fp, hfp, hrel, hne2⟩
    · rintro ⟨fp, hfp, hrel, hne2⟩
      exact ⟨pageData fp.2, (corpusOf_mem files g _).mpr ⟨fp, hfp, hrel, rfl, hne2⟩⟩

/-- C4 witness: a two-file build in which the second file fails to open:
the written corpus has exactly one entry, keyed by the first file. -/
theorem C4_corpus_keys_witness :
    ∃ out corpus, build_search_corpus filesTwo = .ok out ∧ out.written = some corpus ∧
      (∀ g, (∃ pages, (g, pages) ∈ corpus) ↔
        ∃ fp ∈ filesTwo, relFile fp.1 = g ∧ ¬ (pageData fp.2).isEmpty = true) ∧
      corpus.length = (filesTwo.filter (fun fp => !(pageData fp.2).isEmpty)).length :=
  C4_corpus_keys filesTwo (by decide) (by decide) (by decide)

/-- Mapping a list does not change emptiness. -/
theorem isEmpty_map {α β : Type} (f : α → β) (l : List α) : (l.map f).isEmpty = l.isEmpty := by
  cases l <;> rfl

/-- Every key the page loop stores is an integer of the form `n + 1`. -/
theorem extractPagesFrom_keys (outs : List (Except String String)) :
    ∀ (i : Nat) (k : PyVal) (v : String), (k, v) ∈ extractPagesFrom i outs →
      ∃ n : Nat, k = PyVal.int ((n + 1 : ℕ) : ℤ) := by
  induction outs with
  | nil => intro i k v h; simp [extractPagesFrom] at h
  | cons o rest ih =>
    intro i k v h
    cases o with
    | error e => simp [extractPagesFrom] at h
    | ok t =>
      simp only [extractPagesFrom] at h
      rcases List.mem_append.mp h with h1 | h1
      · by_cases ht : t = ""
        · rw [if_pos ht] at h1; cases h1
        · rw [if_neg ht] at h1
          have heq := List.mem_singleton.mp h1
          obtain ⟨hk, -⟩ := Prod.mk.injEq .. ▸ heq
          exact ⟨i, hk⟩
      · exact ih (i + 1) k v h1

/-- A dict after the assignment `d[k] = v` holds, at each key, either an
original value of `d` or the assigned value `v`. -/
theorem dictInsert_values (d : Corpus) (k : String) (v : List (PyVal × String))
    (g : String) (pages : List (PyVal × String)) :
    (g, pages) ∈ dictInsert d k v → (g, pages) ∈ d ∨ pages = v := by
  unfold dictInsert
  by_cases h : k ∈ d.map Prod.fst
  · rw [if_pos h]
    intro hm
    obtain ⟨kv, hkv, heq⟩ := List.mem_map.mp hm
    by_cases h2 : kv.1 = k
    · rw [if_pos h2] at heq
      obtain ⟨-, hv⟩ := Prod.mk.injEq .. ▸ heq
      exact .inr hv.symm
    · rw [if_neg h2] at heq
      exact .inl (heq ▸ hkv)
  · rw [if_neg h]
    intro hm
    rcases List.mem_append.mp hm with h1 | h1
    · exact .inl h1
    · have heq := List.mem_singleton.mp h1
      obtain ⟨-, hv⟩ := Prod.mk.injEq .. ▸ heq
      exact .inr hv

/-- Every page dict stored in the corpus built by the aggregation loop is
either inherited from the accumulator or the extracted `page_data` of one
of the processed files. -/
theorem buildLoop_values (total : Nat) (files : List (FsPath × PdfInput)) :
    ∀ (completed : Nat) (corpus₀ : Corpus) (progress : List ℚ) (c : Corpus) (pr : List ℚ),
    buildLoop total files completed corpus₀ progress = .ok (c, pr) →
    ∀ g pages, (g, pages) ∈ c →
      (g, pages) ∈ corpus₀ ∨ ∃ fp ∈ files, pages = pageData fp.2 := by
  induction files with
  | nil =>
    intro completed c0 progress c pr h g pages hm
    simp only [buildLoop, Except.ok.injEq, Prod.mk.injEq] at h
    rw [← h.1] at hm
    exact .inl hm
  | cons fp rest ih =>
    intro completed c0 progress c pr h g pages hm
    obtain ⟨f, pdf⟩ := fp
    cases hex : extract_text_from_pdf f pdf with
    | error e =>
      simp only [buildLoop, hex] at h
      exact Except.noConfusion h
    | ok result =>
      simp only [buildLoop, hex] at h
      have hcontent := extract_ok_content f pdf result hex
      rcases ih _ _ _ _ _ h g pages hm with h1 | h1
      · by_cases hemp : result.content.isEmpty = true
        · rw [if_pos hemp] at h1; exact .inl h1
        · rw [if_neg hemp] at h1
          rcases dictInsert_values _ _ _ _ _ h1 with h2 | h2
          · exact .inl h2
          · exact .inr ⟨(f, pdf), List.mem_cons_self _ _, by rw [h2, hcontent]⟩
      · obtain ⟨q, hq, hpq⟩ := h1
        exact .inr ⟨q, List.mem_cons_of_mem _ hq, hpq⟩

/-- Every page dict of a corpus written by a build is the `page_data` of
one of the input files. -/
theorem build_written_values (files : List (FsPath × PdfInput)) (out : BuildOutput)
    (c : Corpus) (hbuild : build_search_corpus files = .ok out)
    (hwritten : out.written = some c) :
    ∀ g pages, (g, pages) ∈ c → ∃ fp ∈ files, pages = pageData fp.2 := by
  intro g pages hmem
  unfold build_search_corpus at hbuild
  by_cases hlen : files.length = 0
  · rw [if_pos hlen] at hbuild
    rw [← Except.ok.inj hbuild] at hwritten
    exact Option.noConfusion hwritten
  · rw [if_neg hlen] at hbuild
    cases hloop : buildLoop files.length files 0 [] [] with
    | error e => rw [hloop] at hbuild; exact Except.noConfusion hbuild
    | ok cp =>
      obtain ⟨c2, pr⟩ := cp
      rw [hloop] at hbuild
      rw [← Except.ok.inj hbuild] at hwritten
      rw [← Option.some.inj hwritten] at hmem
      rcases buildLoop_values files.length files 0 [] [] c2 pr hloop g pages hmem with h1 | h1
      · cases h1
      · exact h1

/-- C1 counterexample: building a one-file corpus whose page 1 holds the
text "hello", persisting it, reloading it and searching for "hello"
reports the page number as the string `"1"`, which is a different Python
value from the integer `1` stored at extraction time — the save/load
cycle does not restore integer identity. -/
theorem C1_counterexample_string_page_keys :
    ((build_search_corpus filesHello).toOption.bind BuildOutput.written).map
        (fun c => (search_corpus "hello" (.loaded (jsonSaveLoad c))).results) =
      some [{ file := "a.pdf", pages := [PyVal.str "1"] }] ∧
    PyVal.str "1" ≠ PyVal.int 1 := by
  decide

/-- The matched-pages list over a save/load-cycled page dict is the
rendered image of the matched-pages list over the original dict. -/
theorem matched_pages_roundtrip (t : String) (pages : List (PyVal × String)) :
    (((pages.map (fun kv => (PyVal.str (jsonKey kv.1), kv.2))).filter
        (fun kv => pageMatches t kv.2)).map Prod.fst) =
      ((pages.filter (fun kv => pageMatches t kv.2)).map Prod.fst).map
        (fun k => PyVal.str (jsonKey k)) := by
  rw [List.filter_map, List.map_map, List.map_map]
  rfl

/-- C1 amended/corrected: after the JSON save/load cycle, search reports
each page number as the decimal-string rendering of the integer key stored
at extraction time (the results over the reloaded corpus are exactly the
results over the written corpus with every key rendered to a string), and
every page key a build writes is an integer of the form `n + 1`; the keys
recovered after the cycle are therefore the string images of the original
integers, not the integers themselves. -/
theorem C1_page_keys_after_roundtrip :
    (∀ (t : String) (corpus : Corpus),
      searchLoop t (jsonSaveLoad corpus) =
        (searchLoop t corpus).map
          (fun m => { file := m.file,
                      pages := m.pages.map (fun k => PyVal.str (jsonKey k)) })) ∧
    (∀ files out corpus, build_search_corpus files = .ok out → out.written = some corpus →
      ∀ g pages, (g, pages) ∈ corpus → ∀ k v, (k, v) ∈ pages →
        ∃ n : Nat, k = PyVal.int ((n + 1 : ℕ) : ℤ)) := by
  constructor
  · intro t corpus
    induction corpus with
    | nil => rfl
    | cons entry rest ih =>
      obtain ⟨g, pages⟩ := entry
      simp only [jsonSaveLoad, List.map_cons] at ih ⊢
      rw [searchLoop, searchLoop, List.map_append, ← ih, matched_pages_roundtrip, isEmpty_map]
      by_cases hb : ((pages.filter (fun kv => pageMatches t kv.2)).map Prod.fst).isEmpty = true <;>
        simp [hb]
  · intro files out corpus hbuild hwritten g pages hmem k v hkv
    obtain ⟨fp, -, hpd⟩ := build_written_values files out corpus hbuild hwritten g pages hmem
    rw [hpd] at hkv
    unfold pageData at hkv
    cases hopen : fp.2.open_result with
    | error e => rw [hopen] at hkv; cases hkv
    | ok outs =>
      rw [hopen] at hkv
      exact extractPagesFrom_keys outs 0 k v hkv

/-- C1 witness: the amended round-trip statement instantiated at the
one-file build and its written corpus. -/
theorem C1_page_keys_after_roundtrip_witness :
    (searchLoop "hello" (jsonSaveLoad corpusHello) =
      (searchLoop "hello" corpusHello).map
        (fun m => { file := m.file,
                    pages := m.pages.map (fun k => PyVal.str (jsonKey k)) })) ∧
    ∃ n : Nat, PyVal.int 1 = PyVal.int ((n + 1 : ℕ) : ℤ) :=
  ⟨C1_page_keys_after_roundtrip.1 "hello" corpusHello,
   C1_page_keys_after_roundtrip.2 filesHello outHello corpusHello rfl rfl
     "a.pdf" [(PyVal.int 1, "hello")] (by decide) (PyVal.int 1) "hello" (by decide)⟩

/-- Every result row of the search loop names a key of the corpus. -/
theorem searchLoop_files (t : String) (corpus : Corpus) :
    ∀ m ∈ searchLoop t corpus, m.file ∈ corpus.map Prod.fst := by
  induction corpus with
  | nil => intro m hm; simp [searchLoop] at hm
  | cons entry rest ih =>
    obtain ⟨g, pages⟩ := entry
    intro m hm
    simp only [searchLoop] at hm
    rcases List.mem_append.mp hm with h | h
    · by_cases hb : ((pages.filter (fun kv => pageMatches t kv.2)).map Prod.fst).isEmpty = true
      · rw [if_pos hb] at h; cases h
      · rw [if_neg hb, List.mem_singleton] at h
        subst h
        simp
    · simp [ih m h]

/-- Every result row is a corpus entry restricted to its matching pages. -/
theorem searchLoop_shape (t : String) (corpus : Corpus) :
    ∀ m ∈ searchLoop t corpus,
      ∃ pages, (m.file, pages) ∈ corpus ∧
        m.pages = (pages.filter (fun kv => pageMatches t kv.2)).map Prod.fst := by
  induction corpus with
  | nil => intro m hm; simp [searchLoop] at hm
  | cons entry rest ih =>
    obtain ⟨g, pages⟩ := entry
    intro m hm
    simp only [searchLoop] at hm
    rcases List.mem_append.mp hm with h | h
    · by_cases hb : ((pages.filter (fun kv => pageMatches t kv.2)).map Prod.fst).isEmpty = true
      · rw [if_pos hb] at h; cases h
      · rw [if_neg hb, List.mem_singleton] at h
        subst h
        exact ⟨pages, List.mem_cons_self _ _, rfl⟩
    · obtain ⟨pages2, hmem, hp⟩ := ih m h
      exact ⟨pages2, List.mem_cons_of_mem _ hmem, hp⟩

/-- With pairwise distinct corpus keys (as `json.load` yields), a key
appears among the result rows iff one of its pages matches. -/
theorem searchLoop_mem_iff (t : String) (corpus : Corpus)
    (hnd : (corpus.map Prod.fst).Nodup) :
    ∀ g pages, (g, pages) ∈ corpus →
      ((∃ m ∈ searchLoop t corpus, m.file = g) ↔
        ∃ kv ∈ pages, pageMatches t kv.2 = true) := by
  induction corpus with
  | nil => intro g pages h; cases h
  | cons entry rest ih =>
    obtain ⟨g0, pages0⟩ := entry
    rw [List.map_cons, List.nodup_cons] at hnd
    intro g pages hmem
    rcases List.mem_cons.mp hmem with heq | hrest
    · injection heq with h1 h2
      subst h1
      subst h2
      simp only [searchLoop]
      constructor
      · rintro ⟨m, hm, hfile⟩
        rcases List.mem_append.mp hm with h | h
        · by_cases hb : ((pages.filter (fun kv => pageMatches t kv.2)).map Prod.fst).isEmpty = true
          · rw [if_pos hb] at h; cases h
          · have hb2 : pages.filter (fun kv => pageMatches t kv.2) ≠ [] := by
              intro hnil
              exact hb (by rw [List.isEmpty_eq_true, List.map_eq_nil_iff]; exact hnil)
            obtain ⟨kv, hkvmem⟩ := List.exists_mem_of_ne_nil _ hb2
            exact ⟨kv, (List.mem_filter.mp hkvmem).1, (List.mem_filter.mp hkvmem).2⟩
        · have hx := searchLoop_files t rest m h
          rw [hfile] at hx
          exact absurd hx hnd.1
      · rintro ⟨kv, hkv, hmatch⟩
        have hb : ¬ ((pages.filter (fun kv => pageMatches t kv.2)).map Prod.fst).isEmpty = true := by
          rw [List.isEmpty_eq_true, List.map_eq_nil_iff, List.filter_eq_nil_iff]
          push_neg
          exact ⟨kv, hkv, by simp [hmatch]⟩
        rw [if_neg hb]
        exact ⟨{ file := g, pages := (pages.filter (fun kv => pageMatches t kv.2)).map Prod.fst },
          List.mem_append.mpr (.inl (List.mem_singleton.mpr rfl)), rfl⟩
    · have hg : g ∈ rest.map Prod.fst := List.mem_map.mpr ⟨(g, pages), hrest, rfl⟩
      have hgne : g ≠ g0 := fun h => hnd.1 (h ▸ hg)
      rw [← ih hnd.2 g pages hrest]
      simp only [searchLoop]
      constructor
      · rintro ⟨m, hm, hfile⟩
        rcases List.mem_append.mp hm with h | h
        · by_cases hb : ((pages0.filter (fun kv => pageMatches t kv.2)).map Prod.fst).isEmpty = true
          · rw [if_pos hb] at h; cases h
          · rw [if_neg hb, List.mem_singleton] at h
            subst h
            exact absurd hfile (Ne.symm hgne)
        · exact ⟨m, h, hfile⟩
      · rintro ⟨m, hm, hfile⟩
        exact ⟨m, List.mem_append.mpr (.inr hm), hfile⟩

/-- The integer page keys the extraction loop produces are strictly
ascending, and all exceed the starting index. -/
theorem extractPagesFrom_keys_ascending (outs : List (Except String String)) :
    ∀ i, ∃ nums : List ℕ, nums.Pairwise (· < ·) ∧ (∀ n ∈ nums, i < n) ∧
      (extractPagesFrom i outs).map Prod.fst = nums.map (fun n => PyVal.int ((n : ℕ) : ℤ)) := by
  induction outs with
  | nil => intro i; exact ⟨[], by simp, by simp, by simp [extractPagesFrom]⟩
  | cons o rest ih =>
    intro i
    cases o with
    | error e => exact ⟨[], by simp, by simp, by simp [extractPagesFrom]⟩
    | ok t =>
      obtain ⟨nums, h1, h2, h3⟩ := ih (i + 1)
      by_cases ht : t = ""
      · refine ⟨nums, h1, fun n hn => Nat.lt_of_succ_lt (h2 n hn), ?_⟩
        simp [extractPagesFrom, ht, h3]
      · refine ⟨(i + 1) :: nums, List.pairwise_cons.mpr ⟨h2, h1⟩, ?_, ?_⟩
        · intro n hn
          rcases List.mem_cons.mp hn with rfl | hn2
          · exact Nat.lt_succ_self i
          · exact Nat.lt_of_succ_lt (h2 n hn2)
        · simp [extractPagesFrom, ht, h3]

/-- After the save/load cycle, the page keys of every extracted page dict
are decimal renderings of a strictly ascending list of naturals. -/
theorem pageData_keys_ascending (pdf : PdfInput) :
    AscendingKeys (((pageData pdf).map
      (fun kv => (PyVal.str (jsonKey kv.1), kv.2))).map Prod.fst) := by
  cases hopen : pdf.open_result with
  | error e =>
    simp only [pageData, hopen]
    exact ⟨[], by simp, by simp⟩
  | ok outs =>
    simp only [pageData, hopen]
    obtain ⟨nums, h1, -, h3⟩ := extractPagesFrom_keys_ascending outs 0
    refine ⟨nums, h1, ?_⟩
    rw [List.map_map]
    have hcomp : ((extractPagesFrom 0 outs).map
        (Prod.fst ∘ fun kv => (PyVal.str (jsonKey kv.1), kv.2))) =
        ((extractPagesFrom 0 outs).map Prod.fst).map (fun k => PyVal.str (jsonKey k)) := by
      rw [List.map_map]
      exact List.map_congr_left (fun x _ => rfl)
    rw [hcomp, h3, List.map_map]
    rfl

/-- C5: over a loaded corpus with pairwise distinct file keys whose page
dicts carry ascending numeric (string-rendered) keys — the shape every
corpus written by `build_search_corpus` has after the JSON save/load
cycle, as the final conjunct states — a search with a valid term applies
the case-insensitive substring test to each page independently: a
document appears among the results iff at least one of its pages matches,
each result row lists exactly the keys of its matching pages, and those
keys are in ascending numeric order. -/
theorem C5_search_semantics (term : String) (corpus : Corpus)
    (hv : validate_search_term term = true)
    (hnd : (corpus.map Prod.fst).Nodup)
    (hasc : ∀ g pages, (g, pages) ∈ corpus → AscendingKeys (pages.map Prod.fst)) :
    (∀ g pages, (g, pages) ∈ corpus →
      ((∃ m ∈ (search_corpus term (.loaded corpus)).results, m.file = g) ↔
        ∃ kv ∈ pages, pageMatches (pyLower term) kv.2 = true)) ∧
    (∀ m ∈ (search_corpus term (.loaded corpus)).results,
      ∃ pages, (m.file, pages) ∈ corpus ∧
        m.pages = (pages.filter (fun kv => pageMatches (pyLower term) kv.2)).map Prod.fst ∧
        AscendingKeys m.pages) ∧
    (∀ files out c, build_search_corpus files = .ok out → out.written = some c →
      ∀ g pages, (g, pages) ∈ jsonSaveLoad c → AscendingKeys (pages.map Prod.fst)) := by
  have hres : (search_corpus term (.loaded corpus)).results = searchLoop (pyLower term) corpus := by
    simp [search_corpus, hv]
  refine ⟨?_, ?_, ?_⟩
  · intro g pages hmem
    rw [hres]
    exact searchLoop_mem_iff (pyLower term) corpus hnd g pages hmem
  · intro m hm
    rw [hres] at hm
    obtain ⟨pages, hmem, hp⟩ := searchLoop_shape (pyLower term) corpus m hm
    refine ⟨pages, hmem, hp, ?_⟩
    obtain ⟨nums, hnums, hks⟩ := hasc m.file pages hmem
    have hsub : m.pages.Sublist (pages.map Prod.fst) := by
      rw [hp]
      exact List.Sublist.map Prod.fst (List.filter_sublist pages)
    rw [hks] at hsub
    obtain ⟨nums2, hsub2, hmp⟩ := List.sublist_map_iff.mp hsub
    exact ⟨nums2, List.Pairwise.sublist hsub2 hnums, hmp⟩
  · intro files out c hbuild hwritten g pages hmeml
    obtain ⟨⟨g0, pages0⟩, hmem0, heq⟩ := List.mem_map.mp hmeml
    injection heq with hg hpages
    obtain ⟨fp, -, hpd⟩ := build_written_values files out c hbuild hwritten g0 pages0 hmem0
    rw [← hpages, hpd]
    exact pageData_keys_ascending fp.2

/-- C5 witness: searching the loaded one-page corpus for "COURT" matches
the page text "The Court record" case-insensitively. -/
theorem C5_search_semantics_witness :
    ∃ m ∈ (search_corpus "COURT" (.loaded corpusCourt)).results, m.file = "a.pdf" :=
  ((C5_search_semantics "COURT" corpusCourt (by decide) (by decide)
      (fun g pages h => by
        rw [corpusCourt, List.mem_singleton] at h
        injection h with h1 h2
        rw [h2]
        exact ⟨[1], by decide, by decide⟩)).1
    "a.pdf" [(PyVal.str "1", "The Court record")] (by decide)).mpr
    ⟨(PyVal.str "1", "The Court record"), by decide, by decide⟩

end DojScraper
